import Mathlib

/-!
Verification of the PodioActiveMembers pipeline (`src/main.py`).

The Python source reconstructs a membership roster's history: it resolves
field identifiers from record labels (`extract_member_data`, lines 136-242),
replays each member's revision log to find the departure transition
(`find_status_change_dates`, lines 245-382), and aggregates a monthly
active-member series (`calculate_monthly_stats`, lines 385-476).

Timestamps: the Python code works with `datetime` values parsed from ISO
strings.  We model a datetime as a record of year/month/day/hour/minute/second
components; `DT.key` is the mixed-radix encoding of those components, and
comparisons on datetimes are comparisons of keys.  For in-range components
(month 1-12, day in range, hour < 24, minute < 60, second < 60) key order
agrees with chronological (lexicographic) order, which is how Python compares
datetimes.

Network, caching and plotting (`PodioClient`, `plot_monthly_stats`, `main`)
are I/O collaborators outside the modelled core; the revision fetcher enters
the model as an explicit function `logs : Nat → List Revision`, and
`datetime.now()` as an explicit `now : DT` parameter.
-/

namespace Podio

/-- A datetime value, modelling Python `datetime` at second granularity
(the code only ever subtracts whole seconds, so sub-second fields are
irrelevant). -/
structure DT where
  y : Nat
  mo : Nat
  d : Nat
  h : Nat
  mi : Nat
  s : Nat
deriving DecidableEq, Repr

/-- Mixed-radix encoding of a datetime; chronological order on valid
datetimes is exactly `Nat` order on keys. -/
def DT.key (t : DT) : Nat :=
  ((((t.y * 13 + t.mo) * 32 + t.d) * 24 + t.h) * 60 + t.mi) * 60 + t.s

/-- Python `a <= b` on datetimes. -/
def DT.le (a b : DT) : Bool := a.key ≤ b.key

/-- Python `a < b` on datetimes. -/
def DT.lt (a b : DT) : Bool := a.key < b.key

/-- Leap-year test, as in the Gregorian calendar used by `datetime`. -/
def isLeap (y : Nat) : Bool := (y % 4 == 0 && y % 100 != 0) || (y % 400 == 0)

/-- Number of days in a calendar month. -/
def daysInMonth (y mo : Nat) : Nat :=
  if mo == 2 then (if isLeap y then 29 else 28)
  else if mo == 4 || mo == 6 || mo == 9 || mo == 11 then 30
  else 31

/-- Linear month index of the month containing `t`:
`year * 12 + (month - 1)`. -/
def monthIdx (t : DT) : Nat := t.y * 12 + (t.mo - 1)

/-- The first instant of month index `i`; models
`dt.replace(day=1, hour=0, minute=0, second=0, microsecond=0)` applied to
any datetime in that month. -/
def firstOfMonth (i : Nat) : DT := ⟨i / 12, i % 12 + 1, 1, 0, 0, 0⟩

/-- The last instant (at second granularity) of month index `i`; models
`month_start + relativedelta(months=1) - timedelta(seconds=1)`
(src/main.py line 425). -/
def monthEnd (i : Nat) : DT :=
  ⟨i / 12, i % 12 + 1, daysInMonth (i / 12) (i % 12 + 1), 23, 59, 59⟩

/-- A datetime whose components are in calendar range — every value Python's
`datetime.fromisoformat` can produce satisfies this. -/
def DT.valid (t : DT) : Prop :=
  1 ≤ t.mo ∧ t.mo ≤ 12 ∧ 1 ≤ t.d ∧ t.d ≤ daysInMonth t.y t.mo ∧
    t.h ≤ 23 ∧ t.mi ≤ 59 ∧ t.s ≤ 59

instance (t : DT) : Decidable t.valid := by unfold DT.valid; infer_instance

/-- A Podio field value payload (the object stored under a `"value"` key):
a raw string, a raw integer, a nested dict that may carry a `"text"` entry,
or anything else (list, float, `None`, ...). -/
inductive ValuePayload where
  | strV (s : String)
  | intV (n : Int)
  | dictV (text : Option String)
  | otherV
deriving DecidableEq, Repr

/-- The `member_info` dict built by `extract_member_data`
(src/main.py lines 185-192).  `name` keeps the raw payload because the code
stores `field["values"][0]["value"]` unchanged. -/
structure Member where
  item_id : Nat
  created_on : Option DT
  join_date : Option DT
  leave_date : Option DT
  status : Option String
  name : Option ValuePayload
deriving DecidableEq, Repr

/-! ## Monthly aggregator: `calculate_monthly_stats` (src/main.py 385-476) -/

/-- One member's contribution to a month's (active, joined, left) tally,
mirroring the member loop of src/main.py lines 431-457.  The accumulator is
`(active_count, joined_count, left_count)`. -/
def tallyMember (e : DT) (acc : Int × Int × Int) (m : Member) :
    Int × Int × Int :=
  match m.join_date with
  | none => acc
  | some j =>
    if j.le e then
      match m.leave_date with
      | some l =>
        if l.le e then (acc.1, acc.2.1 + 1, acc.2.2 + 1)
        else (acc.1 + 1, acc.2.1 + 1, acc.2.2)
      | none => (acc.1 + 1, acc.2.1 + 1, acc.2.2)
    else acc

/-- An output row of `calculate_monthly_stats`.  `month` is the linear month
index of the bucket's first-of-month anchor (the code renders it as a
`"%Y-%m"` string). -/
structure MonthlyBucket where
  month : Nat
  active_members : Int
  total_joined : Int
  total_left : Int
deriving DecidableEq, Repr

/-- Builds one bucket: tally all members against the month's last instant,
then apply the self-consistency correction of src/main.py lines 460-465. -/
def makeBucket (md : List Member) (i : Nat) : MonthlyBucket :=
  let t := md.foldl (tallyMember (monthEnd i)) (0, 0, 0)
  let active := if t.1 ≠ t.2.1 - t.2.2 then t.2.1 - t.2.2 else t.1
  ⟨i, active, t.2.1, t.2.2⟩

/-- Python `min` on datetimes, keeping the earlier (first on ties). -/
def dtMin (a b : DT) : DT := if b.lt a then b else a

/-- Join dates of the members that pass the `valid_members` filter
(src/main.py line 388). -/
def joinDates (md : List Member) : List DT := md.filterMap (fun m => m.join_date)

/-- `latest_date`: starts at the processing time and is bumped by every
strictly later leave date (src/main.py lines 402-407). -/
def latestDate (md : List Member) (now : DT) : DT :=
  md.foldl
    (fun acc m =>
      match m.leave_date with
      | some l => if acc.lt l then l else acc
      | none => acc)
    now

/-- The month indices emitted by the while loop of src/main.py lines
417-420: all `i` with `s ≤ i ≤ e`.  The loop compares first-of-month
datetimes, whose chronological order coincides with month-index order. -/
def monthRange (s e : Nat) : List Nat := (List.range (e + 1 - s)).map (s + ·)

/-- `calculate_monthly_stats` (src/main.py 385-476).  `now` stands for
`datetime.now()`: the processing time is an explicit parameter of the model.
The empty `joinDates` case is the `if not valid_members: return []` path;
`earliest` is Python's `min` over the valid members' join dates. -/
def calculate_monthly_stats (md : List Member) (now : DT) :
    List MonthlyBucket :=
  match joinDates md with
  | [] => []
  | j :: js =>
    let earliest := js.foldl dtMin j
    let startI := monthIdx earliest
    let endI := monthIdx (latestDate md now) + 1
    (monthRange startI endI).map (makeBucket md)

/-- The code's per-bucket membership test: `join_date <= month_end`
(src/main.py line 440). -/
def joinedByE (e : DT) (m : Member) : Bool :=
  match m.join_date with
  | some j => j.le e
  | none => false

/-- Joined and also departed by the month's end
(src/main.py lines 444-451). -/
def leftByE (e : DT) (m : Member) : Bool :=
  match m.join_date with
  | some j =>
    j.le e &&
      (match m.leave_date with
       | some l => l.le e
       | none => false)
  | none => false

/-- Joined but not departed by the month's end: counted active
(src/main.py lines 452-457). -/
def activeByE (e : DT) (m : Member) : Bool :=
  match m.join_date with
  | some j =>
    j.le e &&
      !(match m.leave_date with
        | some l => l.le e
        | none => false)
  | none => false

/-! ## Departure resolver: `find_status_change_dates` (src/main.py 245-382) -/

/-- One entry of a revision delta's `old_values`/`values` list: a dict that
may carry a `"value"` key. -/
structure ValueEntry where
  value : Option ValuePayload
deriving DecidableEq, Repr

/-- One field delta inside a revision (src/main.py lines 301-305):
`field_id`, `old_values`, and the new `values`. -/
structure FieldDelta where
  field_id : Option Nat
  old_values : List ValueEntry
  values : List ValueEntry
deriving DecidableEq, Repr

/-- One revision of a member record.  `data` is `some fields` when the
revision has both a `"data"` key and a `"fields"` key under it
(src/main.py line 300), else `none`; `created_on` is
`revision.get("created_on")`. -/
structure Revision where
  created_on : Option DT
  data : Option (List FieldDelta)
deriving DecidableEq, Repr

/-- The hardcoded status field id used by the resolver
(src/main.py line 248). -/
def status_field_id : Nat := 216758721

/-- Decode a status payload to display text: a dict via its `"text"` entry
when present, raw strings and ints via `str(...)`, anything else to `None`
(src/main.py lines 310-334, applied to the head of the list). -/
def decodeStatus (vs : List ValueEntry) : Option String :=
  match vs with
  | [] => none
  | v :: _ =>
    match v.value with
    | none => none
    | some (ValuePayload.dictV t) => t
    | some (ValuePayload.strV s) => some s
    | some (ValuePayload.intV n) => some (toString n)
    | some ValuePayload.otherV => none

/-- A field delta triggers the departure match when it targets the status
field, both value lists are non-empty, and the decoded new value is a
truthy string equal to the member's current status
(src/main.py lines 302-342). -/
def deltaMatches (sfid : Nat) (current : String) (f : FieldDelta) : Bool :=
  f.field_id == some sfid &&
    !f.old_values.isEmpty && !f.values.isEmpty &&
    (match decodeStatus f.values with
     | some ns => !(ns == "") && ns == current
     | none => false)

/-- A revision triggers the match when its delta list contains a matching
status delta (src/main.py lines 300-342). -/
def revisionMatches (sfid : Nat) (current : String) (r : Revision) : Bool :=
  match r.data with
  | some fs => fs.any (deltaMatches sfid current)
  | none => false

/-- Scan the revisions in delivered order; the first matching revision's
`created_on` becomes the leave date (src/main.py lines 298-347).  A matching
revision whose `created_on` is absent leaves `leave_date` falsy, so the scan
continues — exactly the `if leave_date: break` behaviour. -/
def scanRevisions (sfid : Nat) (current : String) :
    List Revision → Option DT
  | [] => none
  | r :: rest =>
    if revisionMatches sfid current r then
      match r.created_on with
      | some d => some d
      | none => scanRevisions sfid current rest
    else scanRevisions sfid current rest

/-- The lexical markers of a departed status (src/main.py line 264). -/
def exitTerms : List String := ["aus", "exit", "left", "former", "ex-", "inactive"]

/-- `t` is a prefix of the second character list. -/
def leadsWith : List Char → List Char → Bool
  | [], _ => true
  | _ :: _, [] => false
  | c :: cs, d :: ds => c == d && leadsWith cs ds

/-- `t` occurs as a contiguous sublist. -/
def subAux (t : List Char) : List Char → Bool
  | [] => t.isEmpty
  | c :: cs => leadsWith t (c :: cs) || subAux t cs

/-- Python's substring test `t in s`. -/
def strContains (s t : String) : Bool := subAux t.data s.data

/-- Python `str.lower()` (the labels involved are ASCII).  Implemented over
the character list so that it evaluates inside proofs. -/
def strToLower (s : String) : String := String.mk (s.data.map Char.toLower)

/-- The truthy status labels present in the population (src/main.py
line 255).  The Python code collects them into a `set`; deduplication and
iteration order do not affect membership or emptiness, which is all the
set is used for. -/
def statusList (md : List Member) : List String :=
  (md.filterMap (fun m => m.status)).filter (fun s => !(s == ""))

/-- Labels carrying an exit marker (src/main.py lines 259-268). -/
def potentialExitStatuses (md : List Member) : List String :=
  (statusList md).filter
    (fun s => exitTerms.any (fun t => strContains (strToLower s) t))

/-- The departed-status set: heuristic matches when any exist, else the
fixed fallback `"ausgetreten"` (src/main.py lines 271-273). -/
def exit_statuses (md : List Member) : List String :=
  if (potentialExitStatuses md).isEmpty then ["ausgetreten"]
  else potentialExitStatuses md

/-- Per-member departure resolution (src/main.py lines 277-365): a member
whose status is in the exit set gets its revision log fetched and scanned;
the first matching revision's timestamp becomes `leave_date`; with no match
and a non-empty log, the first delivered revision's `created_on` is the
approximation; other members are returned untouched. -/
def resolveMember (exits : List String) (logs : Nat → List Revision)
    (m : Member) : Member :=
  match m.status with
  | none => m
  | some s =>
    if exits.contains s then
      let revisions := logs m.item_id
      match scanRevisions status_field_id s revisions with
      | some d => { m with leave_date := some d }
      | none =>
        match revisions with
        | [] => m
        | r :: _ => { m with leave_date := r.created_on }
    else m

/-- `find_status_change_dates` (src/main.py 245-382): compute the exit set
from the population, then resolve each member.  The Python code mutates the
exit members of `member_data` in place and returns the same list, which is
this map. -/
def find_status_change_dates (logs : Nat → List Revision)
    (md : List Member) : List Member :=
  md.map (resolveMember (exit_statuses md) logs)

/-! ## Field resolution and extraction: `extract_member_data`
(src/main.py 136-242) -/

/-- An entry of a raw field's `"values"` list: a dict that may carry a
`"start"` key (date fields) and/or a `"value"` key. -/
structure RawValue where
  start : Option DT
  value : Option ValuePayload
deriving DecidableEq, Repr

/-- A raw Podio field (an entry of `member["fields"]`); every component is
read with `.get`, hence optional.  `values = none` models an absent
`"values"` key (whose `.get` default is `[{}]`), `some []` a present but
empty list. -/
structure RawField where
  field_id : Option Nat
  ftype : Option String
  label : Option String
  values : Option (List RawValue)
deriving DecidableEq, Repr

/-- A raw member record; `item_id` and `created_on` as delivered by the
record system (`item_id` is always present on Podio items). -/
structure RawRecord where
  item_id : Nat
  created_on : Option DT
  fields : List RawField
deriving DecidableEq, Repr

/-- The lower-cased label of a field, defaulting the absent label to `""`
(src/main.py line 157). -/
def fieldLabel (f : RawField) : String := strToLower (f.label.getD "")

/-- The join-date branch of the label scan:
`"beginn" in label and "mitgliedschaft" in label` (src/main.py line 158). -/
def joinLabelMatch (f : RawField) : Bool :=
  strContains (fieldLabel f) "beginn" && strContains (fieldLabel f) "mitgliedschaft"

/-- The status branch: reached only when the join branch did not fire
(`elif`), and `"status" in label` (src/main.py line 161). -/
def statusLabelMatch (f : RawField) : Bool :=
  !joinLabelMatch f && strContains (fieldLabel f) "status"

/-- The name branch: reached only when neither earlier branch fired, and
`"vorname" in label or "name" in label` (src/main.py line 164). -/
def nameLabelMatch (f : RawField) : Bool :=
  !joinLabelMatch f && !strContains (fieldLabel f) "status" &&
    (strContains (fieldLabel f) "vorname" || strContains (fieldLabel f) "name")

/-- One step of the field-identifier scan (src/main.py lines 155-166).
Each assignment overwrites whatever the identifier held before. -/
def resolveStep (acc : Option Nat × Option Nat × Option Nat)
    (f : RawField) : Option Nat × Option Nat × Option Nat :=
  if joinLabelMatch f then (f.field_id, acc.2.1, acc.2.2)
  else if statusLabelMatch f then (acc.1, f.field_id, acc.2.2)
  else if nameLabelMatch f then (acc.1, acc.2.1, f.field_id)
  else acc

/-- All fields of the first `min(5, n)` records, in iteration order
(src/main.py line 155); the nested `for` loops visit exactly this list. -/
def sampleFields (members : List RawRecord) : List RawField :=
  (members.take 5).foldl (fun acc m => acc ++ m.fields) []

/-- The label scan of src/main.py lines 150-166, as a fold over the
sampled fields. -/
def scanFieldIds (members : List RawRecord) :
    Option Nat × Option Nat × Option Nat :=
  (sampleFields members).foldl resolveStep (none, none, none)

/-- Python truthiness fallback `if not fid: fid = default`
(src/main.py lines 169-174); note that a resolved id of `0` also counts as
unset. -/
def orDefault (o : Option Nat) (d : Nat) : Nat :=
  match o with
  | some n => if n == 0 then d else n
  | none => d

/-- Fallback constant `229611689` ("beginn-mitgliedschaft"). -/
def DEFAULT_JOIN_FIELD_ID : Nat := 229611689

/-- Fallback constant `216758721` ("status"). -/
def DEFAULT_STATUS_FIELD_ID : Nat := 216758721

/-- Fallback constant `206882163` ("name"). -/
def DEFAULT_NAME_FIELD_ID : Nat := 206882163

/-- Process one raw field into the member info dict (src/main.py lines
196-213).  `Except.error` marks the spots where the Python code raises:
`field["values"][0]` on a present-but-empty list for a date-typed join
field (IndexError), and the `["value"]["text"]` / `["value"]` paths on
malformed status and name values (KeyError/TypeError). -/
def applyField (jid sid nid : Nat) (info : Member) (f : RawField) :
    Except String Member :=
  if f.field_id == some jid then
    if f.ftype == some "date" then
      match f.values with
      | none => Except.ok info
      | some [] => Except.error "IndexError: list index out of range"
      | some (v :: _) =>
        match v.start with
        | some d => Except.ok { info with join_date := some d }
        | none => Except.ok info
    else Except.ok info
  else if f.field_id == some sid then
    if f.ftype == some "category" then
      match f.values with
      | none => Except.ok info
      | some [] => Except.ok info
      | some (v :: _) =>
        match v.value with
        | some (ValuePayload.dictV (some t)) =>
          Except.ok { info with status := some t }
        | _ => Except.error "KeyError: status value has no text"
    else Except.ok info
  else if f.field_id == some nid then
    if f.ftype == some "text" then
      match f.values with
      | none => Except.ok info
      | some [] => Except.ok info
      | some (v :: _) =>
        match v.value with
        | some p => Except.ok { info with name := some p }
        | none => Except.error "KeyError: name value missing"
    else Except.ok info
  else Except.ok info

/-- Build one member's info dict from its raw record
(src/main.py lines 180-215). -/
def extractOne (jid sid nid : Nat) (r : RawRecord) : Except String Member :=
  r.fields.foldlM (applyField jid sid nid)
    { item_id := r.item_id, created_on := r.created_on, join_date := none,
      leave_date := none, status := none, name := none }

/-- `extract_member_data` (src/main.py 136-242): resolve the three field
identifiers from the sample, then normalize every record in order; the
first exception raised aborts the whole run. -/
def extract_member_data (members : List RawRecord) :
    Except String (List Member) :=
  let ids := scanFieldIds members
  let jid := orDefault ids.1 DEFAULT_JOIN_FIELD_ID
  let sid := orDefault ids.2.1 DEFAULT_STATUS_FIELD_ID
  let nid := orDefault ids.2.2 DEFAULT_NAME_FIELD_ID
  members.mapM (extractOne jid sid nid)

/-! ## Concrete instances used by witnesses and counterexamples -/

/-- A member joining in January of year 2, never leaving. -/
def mW2 : Member :=
  { item_id := 1, created_on := none, join_date := some ⟨2, 1, 5, 0, 0, 0⟩,
    leave_date := none, status := none, name := none }

def mdW2 : List Member := [mW2]

def nowW2 : DT := ⟨2, 1, 10, 0, 0, 0⟩

/-- A member joining in month index 24 and leaving in month index 26. -/
def mW3 : Member :=
  { item_id := 1, created_on := none, join_date := some ⟨2, 1, 5, 0, 0, 0⟩,
    leave_date := some ⟨2, 3, 10, 0, 0, 0⟩, status := none, name := none }

def mdW3 : List Member := [mW3]

def nowW3 : DT := ⟨2, 1, 20, 0, 0, 0⟩

/-- A member whose join date (year 3) lies after the processing time
(year 2): the series range is then empty. -/
def mX5 : Member :=
  { item_id := 1, created_on := none, join_date := some ⟨3, 1, 5, 0, 0, 0⟩,
    leave_date := none, status := none, name := none }

def mdX5 : List Member := [mX5]

def nowX5 : DT := ⟨2, 1, 1, 0, 0, 0⟩

def mdW5 : List Member := [mW2]

def nowW5 : DT := ⟨2, 1, 10, 0, 0, 0⟩

/-- Fixed member collection for the determinism counterexample. -/
def mdX8 : List Member :=
  [{ item_id := 1, created_on := none, join_date := some ⟨2, 1, 15, 0, 0, 0⟩,
     leave_date := none, status := none, name := none }]

def t1X8 : DT := ⟨2, 2, 1, 0, 0, 0⟩

def t2X8 : DT := ⟨2, 5, 1, 0, 0, 0⟩

def mdW8 : List Member :=
  [{ item_id := 1, created_on := none, join_date := some ⟨2, 1, 15, 0, 0, 0⟩,
     leave_date := some ⟨2, 2, 20, 0, 0, 0⟩, status := none, name := none }]

def t1W8 : DT := ⟨2, 3, 5, 0, 0, 0⟩

def t2W8 : DT := ⟨2, 3, 25, 0, 0, 0⟩

def mdW10 : List Member := [mW3]

def nowW10 : DT := ⟨2, 1, 20, 0, 0, 0⟩

/-- A departed member for the resolver claims. -/
def mC1 : Member :=
  { item_id := 7, created_on := none, join_date := none, leave_date := none,
    status := some "ausgetreten", name := none }

def mdC1 : List Member := [mC1]

/-- A status delta `aktiv → ausgetreten` on the status field. -/
def deltaC1 : FieldDelta :=
  { field_id := some 216758721,
    old_values := [⟨some (ValuePayload.dictV (some "aktiv"))⟩],
    values := [⟨some (ValuePayload.dictV (some "ausgetreten"))⟩] }

def revNoMatchC1 : Revision := ⟨some ⟨2, 1, 1, 0, 0, 0⟩, some []⟩

def revMatchC1 : Revision := ⟨some ⟨2, 2, 2, 0, 0, 0⟩, some [deltaC1]⟩

def revLaterC1 : Revision := ⟨some ⟨2, 3, 3, 0, 0, 0⟩, some [deltaC1]⟩

def logsC1 : Nat → List Revision :=
  fun n => if n == 7 then [revNoMatchC1, revMatchC1, revLaterC1] else []

/-- A departed member for the fallback claims. -/
def mC6 : Member :=
  { item_id := 8, created_on := none, join_date := none, leave_date := none,
    status := some "ausgetreten", name := none }

def mdC6 : List Member := [mC6]

def TC6 : DT := ⟨2, 4, 4, 0, 0, 0⟩

/-- A matching revision stamped `TC6`. -/
def rExactC6 : Revision :=
  ⟨some TC6,
    some [{ field_id := some 216758721,
            old_values := [⟨some (ValuePayload.dictV (some "aktiv"))⟩],
            values := [⟨some (ValuePayload.dictV (some "ausgetreten"))⟩] }]⟩

/-- A non-matching revision stamped `TC6`. -/
def rPlainC6 : Revision := ⟨some TC6, some []⟩

def rNoneC6 : Revision := ⟨some ⟨2, 1, 1, 0, 0, 0⟩, none⟩

def logsExactC6 : Nat → List Revision := fun _ => [rExactC6]

def logsApproxC6 : Nat → List Revision := fun _ => [rPlainC6, rNoneC6]

def mExit9 : Member :=
  { item_id := 1, created_on := none, join_date := none, leave_date := none,
    status := some "ausgetreten", name := none }

def mStay9 : Member :=
  { item_id := 2, created_on := none, join_date := some ⟨2, 1, 5, 0, 0, 0⟩,
    leave_date := none, status := some "aktiv", name := none }

def md9 : List Member := [mExit9, mStay9]

def rev9 : Revision := ⟨some ⟨2, 2, 2, 0, 0, 0⟩, some []⟩

/-- Two revision fetchers agreeing on the departed member (id 1) but
disagreeing on the active member (id 2). -/
def logs9a : Nat → List Revision := fun n => if n == 1 then [rev9] else []

def logs9b : Nat → List Revision := fun n => if n == 1 then [rev9] else [rev9]

/-- Two sampled fields whose labels both contain "status", with different
field ids. -/
def fC4a : RawField :=
  { field_id := some 1, ftype := none, label := some "Status", values := none }

def fC4b : RawField :=
  { field_id := some 2, ftype := none, label := some "Status alt",
    values := none }

def rC4a : RawRecord := { item_id := 10, created_on := none, fields := [fC4a] }

def rC4b : RawRecord := { item_id := 11, created_on := none, fields := [fC4b] }

def sampleC4 : List RawRecord := [rC4a, rC4b]

/-- A date-typed join field whose `"values"` key is present but holds the
empty list: `field.get("values", [{}])[0]` raises IndexError on it. -/
def badFieldC7 : RawField :=
  { field_id := some 229611689, ftype := some "date", label := none,
    values := some [] }

def badRecordC7 : RawRecord :=
  { item_id := 1, created_on := none, fields := [badFieldC7] }

/-! ## Calendar lemmas -/

theorem daysInMonth_le (y mo : Nat) : daysInMonth y mo ≤ 31 := by
  unfold daysInMonth
  split
  · split <;> omega
  · split <;> omega

theorem daysInMonth_pos (y mo : Nat) : 1 ≤ daysInMonth y mo := by
  unfold daysInMonth
  split
  · split <;> omega
  · split <;> omega

theorem monthEnd_valid (i : Nat) : (monthEnd i).valid := by
  unfold DT.valid monthEnd
  dsimp only
  exact ⟨by omega, by omega, daysInMonth_pos _ _, Nat.le_refl _,
    by omega, by omega, by omega⟩

theorem monthIdx_monthEnd (i : Nat) : monthIdx (monthEnd i) = i := by
  unfold monthIdx monthEnd
  dsimp only
  omega

/-- Chronological order respects the month index: a valid datetime in an
earlier month has a strictly smaller key. -/
theorem key_lt_of_monthIdx_lt {t u : DT} (ht : t.valid) (hu : u.valid)
    (h : monthIdx t < monthIdx u) : t.key < u.key := by
  obtain ⟨h1, h2, h3, h4, h5, h6, h7⟩ := ht
  obtain ⟨g1, g2, g3, g4, g5, g6, g7⟩ := hu
  have h4' : t.d ≤ 31 := le_trans h4 (daysInMonth_le _ _)
  have g4' : u.d ≤ 31 := le_trans g4 (daysInMonth_le _ _)
  unfold monthIdx at h
  unfold DT.key
  -- reduce to the year/month prefix comparison
  have key13 : t.y * 13 + t.mo < u.y * 13 + u.mo := by
    rcases Nat.lt_trichotomy t.y u.y with hy | hy | hy
    · omega
    · omega
    · omega
  omega

/-- A valid datetime is at most the last instant of its own month. -/
theorem key_le_monthEnd_self {t : DT} (ht : t.valid) :
    t.key ≤ (monthEnd (monthIdx t)).key := by
  obtain ⟨h1, h2, h3, h4, h5, h6, h7⟩ := ht
  have hy : monthIdx t / 12 = t.y := by unfold monthIdx; omega
  have hm : monthIdx t % 12 + 1 = t.mo := by unfold monthIdx; omega
  unfold DT.key monthEnd
  dsimp only
  rw [hy, hm]
  omega

/-- Bridging lemma: for a valid datetime `t`, the code's test
`t <= month_end` holds exactly when `t`'s month is at most that month. -/
theorem le_monthEnd_iff {t : DT} (ht : t.valid) (i : Nat) :
    (t.le (monthEnd i) = true) ↔ monthIdx t ≤ i := by
  unfold DT.le
  simp only [decide_eq_true_eq]
  constructor
  · intro hk
    by_contra h
    push_neg at h
    have := key_lt_of_monthIdx_lt (monthEnd_valid i) ht
      (by rw [monthIdx_monthEnd]; omega)
    omega
  · intro h
    rcases Nat.lt_or_ge (monthIdx t) i with h' | h'
    · exact le_of_lt (key_lt_of_monthIdx_lt ht (monthEnd_valid i)
        (by rw [monthIdx_monthEnd]; omega))
    · have : monthIdx t = i := by omega
      rw [← this]
      exact key_le_monthEnd_self ht

/-- The last instants of months are monotone in the month index. -/
theorem monthEnd_key_mono {i j : Nat} (h : i ≤ j) :
    (monthEnd i).key ≤ (monthEnd j).key := by
  rcases Nat.eq_or_lt_of_le h with rfl | h'
  · exact Nat.le_refl _
  · exact le_of_lt (key_lt_of_monthIdx_lt (monthEnd_valid i) (monthEnd_valid j)
      (by rw [monthIdx_monthEnd, monthIdx_monthEnd]; exact h'))

/-- Key order implies month order on valid datetimes. -/
theorem monthIdx_le_of_key_le {a b : DT} (ha : a.valid) (hb : b.valid)
    (h : a.key ≤ b.key) : monthIdx a ≤ monthIdx b := by
  by_contra hc
  push_neg at hc
  have := key_lt_of_monthIdx_lt hb ha hc
  omega

/-! ## Tally characterization -/

theorem tallyMember_step (e : DT) (acc : Int × Int × Int) (m : Member) :
    tallyMember e acc m =
      (acc.1 + (if activeByE e m then 1 else 0),
       acc.2.1 + (if joinedByE e m then 1 else 0),
       acc.2.2 + (if leftByE e m then 1 else 0)) := by
  unfold tallyMember activeByE joinedByE leftByE
  rcases m.join_date with _ | j
  · simp
  · rcases m.leave_date with _ | l
    · by_cases h : j.le e <;> simp [h]
    · by_cases h : j.le e <;> by_cases h2 : l.le e <;> simp [h, h2]

theorem tally_foldl (e : DT) (md : List Member) (a j l : Int) :
    md.foldl (tallyMember e) (a, j, l) =
      (a + md.countP (activeByE e), j + md.countP (joinedByE e),
        l + md.countP (leftByE e)) := by
  induction md generalizing a j l with
  | nil => simp
  | cons m t ih =>
    rw [List.foldl_cons, tallyMember_step, ih]
    simp only [List.countP_cons, Prod.mk.injEq]
    refine ⟨?_, ?_, ?_⟩ <;> push_cast [apply_ite] <;> split <;> omega

/-- Each member is joined-by-`e` iff it is active-by-`e` or left-by-`e`,
exclusively; hence the three counts are linked. -/
theorem countP_joined_split (e : DT) (md : List Member) :
    md.countP (joinedByE e) =
      md.countP (activeByE e) + md.countP (leftByE e) := by
  induction md with
  | nil => simp
  | cons m t ih =>
    simp only [List.countP_cons, ih]
    have : (if joinedByE e m then 1 else 0) =
        (if activeByE e m then 1 else 0) + (if leftByE e m then 1 else 0) := by
      unfold joinedByE activeByE leftByE
      rcases m.join_date with _ | j
      · simp
      · rcases m.leave_date with _ | l
        · by_cases h : j.le e <;> simp [h]
        · by_cases h : j.le e <;> by_cases h2 : l.le e <;> simp [h, h2]
    omega

theorem makeBucket_month (md : List Member) (i : Nat) :
    (makeBucket md i).month = i := by
  unfold makeBucket
  dsimp only

theorem makeBucket_counts (md : List Member) (i : Nat) :
    (makeBucket md i).total_joined =
        (md.countP (joinedByE (monthEnd i)) : Int) ∧
      (makeBucket md i).total_left =
        (md.countP (leftByE (monthEnd i)) : Int) ∧
      (makeBucket md i).active_members =
        (md.countP (activeByE (monthEnd i)) : Int) := by
  unfold makeBucket
  rw [tally_foldl]
  dsimp only
  have hsplit := countP_joined_split (monthEnd i) md
  constructor
  · omega
  constructor
  · omega
  · split <;> omega

/-- The correction step makes `active = joined - left` hold in both branches
of the `if` at src/main.py lines 460-465. -/
theorem makeBucket_invariant (md : List Member) (i : Nat) :
    (makeBucket md i).active_members =
      (makeBucket md i).total_joined - (makeBucket md i).total_left := by
  unfold makeBucket
  dsimp only
  split <;> omega

/-! ## Month-range characterization -/

theorem monthRange_getElem (s e k : Nat) :
    (monthRange s e)[k]? = if s + k ≤ e then some (s + k) else none := by
  unfold monthRange
  rw [List.getElem?_map]
  rcases Nat.lt_or_ge k (e + 1 - s) with h | h
  · rw [List.getElem?_range h, if_pos (by omega)]
    rfl
  · rw [List.getElem?_eq_none (by simpa using h), if_neg (by omega)]
    rfl

theorem monthRange_length (s e : Nat) :
    (monthRange s e).length = e + 1 - s := by
  unfold monthRange
  rw [List.length_map, List.length_range]

theorem calculate_month_map (md : List Member) (now : DT) (j : DT)
    (js : List DT) (hjd : joinDates md = j :: js) :
    (calculate_monthly_stats md now).map (fun b => b.month) =
      monthRange (monthIdx (js.foldl dtMin j))
        (monthIdx (latestDate md now) + 1) := by
  unfold calculate_monthly_stats
  rw [hjd]
  dsimp only
  rw [List.map_map]
  have : (fun b : MonthlyBucket => b.month) ∘ makeBucket md = id := by
    funext i
    exact makeBucket_month md i
  rw [this, List.map_id]

theorem calculate_eq_nil (md : List Member) (now : DT)
    (h : joinDates md = []) : calculate_monthly_stats md now = [] := by
  unfold calculate_monthly_stats
  rw [h]

theorem calculate_eq_cons (md : List Member) (now : DT) (j : DT)
    (js : List DT) (h : joinDates md = j :: js) :
    calculate_monthly_stats md now =
      (monthRange (monthIdx (js.foldl dtMin j))
        (monthIdx (latestDate md now) + 1)).map (makeBucket md) := by
  unfold calculate_monthly_stats
  rw [h]

/-- The per-member tests only get easier as the month-end threshold
grows. -/
theorem joinedByE_mono {e e' : DT} (h : e.key ≤ e'.key) (m : Member)
    (hm : joinedByE e m = true) : joinedByE e' m = true := by
  rcases hj : m.join_date with _ | j
  · simp [joinedByE, hj] at hm
  · simp only [joinedByE, hj, DT.le, decide_eq_true_eq] at hm ⊢
    omega

theorem leftByE_mono {e e' : DT} (h : e.key ≤ e'.key) (m : Member)
    (hm : leftByE e m = true) : leftByE e' m = true := by
  rcases hj : m.join_date with _ | j
  · simp [leftByE, hj] at hm
  · rcases hl : m.leave_date with _ | l
    · simp [leftByE, hj, hl] at hm
    · simp only [leftByE, hj, hl, DT.le, Bool.and_eq_true,
        decide_eq_true_eq] at hm ⊢
      omega

/-! ## Claim theorems: the monthly aggregator -/

/-- C2: every bucket returned by `calculate_monthly_stats` satisfies
`active_members = total_joined - total_left`; when the tally disagrees the
code overwrites `active_members` with `total_joined - total_left` instead of
raising, so the equation holds post-correction in every case. -/
theorem bucket_invariant_post_correction (md : List Member) (now : DT)
    (b : MonthlyBucket) (hb : b ∈ calculate_monthly_stats md now) :
    b.active_members = b.total_joined - b.total_left := by
  rcases hjd : joinDates md with _ | ⟨j, js⟩
  · rw [calculate_eq_nil md now hjd] at hb
    simp at hb
  · rw [calculate_eq_cons md now j js hjd] at hb
    obtain ⟨i, _, rfl⟩ := List.mem_map.1 hb
    exact makeBucket_invariant md i

theorem bucket_invariant_witness :
    (MonthlyBucket.mk 24 1 1 0) ∈ calculate_monthly_stats mdW2 nowW2 ∧
      (MonthlyBucket.mk 24 1 1 0).active_members =
        (MonthlyBucket.mk 24 1 1 0).total_joined -
          (MonthlyBucket.mk 24 1 1 0).total_left :=
  ⟨by decide, bucket_invariant_post_correction mdW2 nowW2 _ (by decide)⟩

/-- C3: in every emitted bucket, `total_joined` counts exactly the members
whose `join_date` is at most the month's last instant; among them,
`total_left` counts those with a `leave_date` at most that instant and
`active_members` the rest.  Moreover a member joining in month `M` with a
leave date in month `M + 2` is joined from `M` on, departed from `M + 2`
on, and active exactly in `M` and `M + 1`. -/
theorem bucket_counts_and_departure_window :
    (∀ (md : List Member) (now : DT) (b : MonthlyBucket),
        b ∈ calculate_monthly_stats md now →
          b.total_joined = (md.countP (joinedByE (monthEnd b.month)) : Int) ∧
          b.total_left = (md.countP (leftByE (monthEnd b.month)) : Int) ∧
          b.active_members = (md.countP (activeByE (monthEnd b.month)) : Int)) ∧
    (∀ (m : Member) (j l : DT) (M : Nat),
        m.join_date = some j → j.valid → monthIdx j = M →
          m.leave_date = some l → l.valid → monthIdx l = M + 2 →
          (∀ k, joinedByE (monthEnd k) m = true ↔ M ≤ k) ∧
          (∀ k, leftByE (monthEnd k) m = true ↔ M + 2 ≤ k) ∧
          (∀ k, activeByE (monthEnd k) m = true ↔ (k = M ∨ k = M + 1))) := by
  constructor
  · intro md now b hb
    rcases hjd : joinDates md with _ | ⟨j, js⟩
    · rw [calculate_eq_nil md now hjd] at hb
      simp at hb
    · rw [calculate_eq_cons md now j js hjd] at hb
      obtain ⟨i, _, rfl⟩ := List.mem_map.1 hb
      rw [makeBucket_month]
      exact makeBucket_counts md i
  · intro m j l M hj hjv hjM hl hlv hlM
    refine ⟨fun k => ?_, fun k => ?_, fun k => ?_⟩
    · unfold joinedByE
      rw [hj, le_monthEnd_iff hjv, hjM]
    · unfold leftByE
      rw [hj, hl]
      simp only [Bool.and_eq_true]
      rw [le_monthEnd_iff hjv, le_monthEnd_iff hlv, hjM, hlM]
      omega
    · unfold activeByE
      rw [hj, hl]
      simp only [Bool.and_eq_true, Bool.not_eq_true']
      rw [Bool.eq_false_iff, Ne, le_monthEnd_iff hjv,
        le_monthEnd_iff hlv, hjM, hlM]
      omega

theorem bucket_counts_witness :
    ((MonthlyBucket.mk 25 1 1 0).total_joined =
        (mdW3.countP (joinedByE (monthEnd 25)) : Int) ∧
      (MonthlyBucket.mk 25 1 1 0).total_left =
        (mdW3.countP (leftByE (monthEnd 25)) : Int) ∧
      (MonthlyBucket.mk 25 1 1 0).active_members =
        (mdW3.countP (activeByE (monthEnd 25)) : Int)) ∧
    (activeByE (monthEnd 25) mW3 = true ↔ (25 = 24 ∨ 25 = 25)) :=
  ⟨bucket_counts_and_departure_window.1 mdW3 nowW3 _ (by decide),
   (bucket_counts_and_departure_window.2 mW3 ⟨2, 1, 5, 0, 0, 0⟩
      ⟨2, 3, 10, 0, 0, 0⟩ 24 rfl (by decide) rfl rfl (by decide)
      rfl).2.2 25⟩

/-- C10: across consecutive buckets, the cumulative counts `total_joined`
and `total_left` never decrease, because each is a from-scratch count
against a month-end threshold that only grows. -/
theorem cumulative_counts_monotone (md : List Member) (now : DT) (k : Nat)
    (a b : MonthlyBucket)
    (ha : (calculate_monthly_stats md now)[k]? = some a)
    (hb : (calculate_monthly_stats md now)[k + 1]? = some b) :
    a.total_joined ≤ b.total_joined ∧ a.total_left ≤ b.total_left := by
  rcases hjd : joinDates md with _ | ⟨j, js⟩
  · rw [calculate_eq_nil md now hjd] at ha
    simp at ha
  · rw [calculate_eq_cons md now j js hjd] at ha hb
    rw [List.getElem?_map, monthRange_getElem] at ha hb
    by_cases h1 : monthIdx (js.foldl dtMin j) + k ≤
        monthIdx (latestDate md now) + 1
    · rw [if_pos h1] at ha
      by_cases h2 : monthIdx (js.foldl dtMin j) + (k + 1) ≤
          monthIdx (latestDate md now) + 1
      · rw [if_pos h2] at hb
        simp only [Option.map_some', Option.some.injEq] at ha hb
        subst ha
        subst hb
        have hkey := monthEnd_key_mono
          (Nat.le_succ (monthIdx (js.foldl dtMin j) + k))
        obtain ⟨ja, la, -⟩ := makeBucket_counts md
          (monthIdx (js.foldl dtMin j) + k)
        obtain ⟨jb, lb, -⟩ := makeBucket_counts md
          (monthIdx (js.foldl dtMin j) + (k + 1))
        rw [ja, la, jb, lb]
        constructor
        · exact_mod_cast List.countP_mono_left
            (fun m _ hm => joinedByE_mono hkey m hm)
        · exact_mod_cast List.countP_mono_left
            (fun m _ hm => leftByE_mono hkey m hm)
      · rw [if_neg h2] at hb
        simp at hb
    · rw [if_neg h1] at ha
      simp at ha

theorem cumulative_counts_witness :
    (calculate_monthly_stats mdW10 nowW10)[0]? =
        some (MonthlyBucket.mk 24 1 1 0) ∧
      (calculate_monthly_stats mdW10 nowW10)[1]? =
        some (MonthlyBucket.mk 25 1 1 0) ∧
      (MonthlyBucket.mk 24 1 1 0).total_joined ≤
        (MonthlyBucket.mk 25 1 1 0).total_joined ∧
      (MonthlyBucket.mk 24 1 1 0).total_left ≤
        (MonthlyBucket.mk 25 1 1 0).total_left :=
  ⟨by decide, by decide,
   cumulative_counts_monotone mdW10 nowW10 0 _ _ (by decide) (by decide)⟩

/-- C5 counterexample: a collection with a member that has a join date can
still produce an *empty* series — when the join month lies after the end
bound (processing time in year 2, join date in year 3), the while loop never
runs, so the output does not start at the earliest join month as claimed. -/
theorem series_range_counterexample :
    joinDates mdX5 ≠ [] ∧ calculate_monthly_stats mdX5 nowX5 = [] := by
  constructor
  · decide
  · rfl

/-- C5 (amended): provided the start month (first-of-month of the earliest
join date) does not lie after the end bound (one month past the month of
the later of the processing time and the latest leave date), the emitted
months are exactly the start month, the end bound last, strictly increasing
with no gaps. -/
theorem series_start_end_gapfree (md : List Member) (now : DT) (j : DT)
    (js : List DT) (hjd : joinDates md = j :: js)
    (hse : monthIdx (js.foldl dtMin j) ≤ monthIdx (latestDate md now) + 1) :
    ((calculate_monthly_stats md now).map (fun b => b.month)).head? =
        some (monthIdx (js.foldl dtMin j)) ∧
      ((calculate_monthly_stats md now).map (fun b => b.month)).getLast? =
        some (monthIdx (latestDate md now) + 1) ∧
      ∀ k a b,
        ((calculate_monthly_stats md now).map (fun b => b.month))[k]? =
            some a →
          ((calculate_monthly_stats md now).map (fun b => b.month))[k + 1]? =
              some b →
            b = a + 1 := by
  rw [calculate_month_map md now j js hjd]
  refine ⟨?_, ?_, ?_⟩
  · rw [List.head?_eq_getElem?, monthRange_getElem, if_pos (by omega),
      Option.some.injEq]
    omega
  · rw [List.getLast?_eq_getElem?, monthRange_length, monthRange_getElem,
      if_pos (by omega), Option.some.injEq]
    omega
  · intro k a b hka hkb
    rw [monthRange_getElem] at hka hkb
    by_cases h1 : monthIdx (js.foldl dtMin j) + k ≤
        monthIdx (latestDate md now) + 1
    · rw [if_pos h1, Option.some.injEq] at hka
      by_cases h2 : monthIdx (js.foldl dtMin j) + (k + 1) ≤
          monthIdx (latestDate md now) + 1
      · rw [if_pos h2, Option.some.injEq] at hkb
        omega
      · rw [if_neg h2] at hkb
        exact absurd hkb (by simp)
    · rw [if_neg h1] at hka
      exact absurd hka (by simp)

theorem series_start_end_witness :
    ((calculate_monthly_stats mdW5 nowW5).map (fun b => b.month)).head? =
        some 24 ∧
      ((calculate_monthly_stats mdW5 nowW5).map (fun b => b.month)).getLast? =
        some 25 ∧
      (25 : Nat) = 24 + 1 :=
  ⟨(series_start_end_gapfree mdW5 nowW5 ⟨2, 1, 5, 0, 0, 0⟩ [] rfl
      (by decide)).1,
   (series_start_end_gapfree mdW5 nowW5 ⟨2, 1, 5, 0, 0, 0⟩ [] rfl
      (by decide)).2.1,
   (series_start_end_gapfree mdW5 nowW5 ⟨2, 1, 5, 0, 0, 0⟩ [] rfl
      (by decide)).2.2 0 24 25 (by decide) (by decide)⟩

/-- C8 counterexample: the same member collection aggregated at two
different processing times gives different outputs (the series is one month
long under `t1X8` and four months longer under `t2X8`), so the result is
not a function of the member collection alone. -/
theorem determinism_counterexample :
    calculate_monthly_stats mdX8 t1X8 ≠ calculate_monthly_stats mdX8 t2X8 := by
  decide

/-- The fold computing `latest_date` preserves validity and, given two
starting points in the same month, lands in the same month. -/
theorem latestDate_monthIdx :
    ∀ (md : List Member) (a1 a2 : DT),
      (∀ m ∈ md, ∀ l, m.leave_date = some l → l.valid) →
      a1.valid → a2.valid → monthIdx a1 = monthIdx a2 →
      (latestDate md a1).valid ∧
        monthIdx (latestDate md a1) = monthIdx (latestDate md a2)
  | [], a1, a2, _, h1, _, h12 => ⟨h1, h12⟩
  | m :: t, a1, a2, hl, h1, h2, h12 => by
    have hstep : ∀ b : DT, latestDate (m :: t) b =
        latestDate t (match m.leave_date with
          | some l => if b.lt l then l else b
          | none => b) := fun b => rfl
    rw [hstep a1, hstep a2]
    have ht : ∀ m' ∈ t, ∀ l, m'.leave_date = some l → l.valid :=
      fun m' hm' => hl m' (List.mem_cons_of_mem _ hm')
    rcases hld : m.leave_date with _ | l
    · exact latestDate_monthIdx t a1 a2 ht h1 h2 h12
    · have hlv : l.valid := hl m (List.mem_cons_self m t) l hld
      have hkey : ∀ b : DT, b.lt l = true ↔ b.key < l.key := by
        intro b
        unfold DT.lt
        simp
      dsimp only
      by_cases c1 : a1.lt l = true <;> by_cases c2 : a2.lt l = true
      · rw [if_pos c1, if_pos c2]
        exact latestDate_monthIdx t l l ht hlv hlv rfl
      · rw [if_pos c1, if_neg c2]
        have e1 : monthIdx a1 ≤ monthIdx l :=
          monthIdx_le_of_key_le h1 hlv (le_of_lt ((hkey a1).1 c1))
        have e2 : monthIdx l ≤ monthIdx a2 :=
          monthIdx_le_of_key_le hlv h2 (by
            have := (hkey a2).not.1 c2
            omega)
        exact latestDate_monthIdx t l a2 ht hlv h2 (by omega)
      · rw [if_neg c1, if_pos c2]
        have e1 : monthIdx a2 ≤ monthIdx l :=
          monthIdx_le_of_key_le h2 hlv (le_of_lt ((hkey a2).1 c2))
        have e2 : monthIdx l ≤ monthIdx a1 :=
          monthIdx_le_of_key_le hlv h1 (by
            have := (hkey a1).not.1 c1
            omega)
        exact latestDate_monthIdx t a1 l ht h1 hlv (by omega)
      · rw [if_neg c1, if_neg c2]
        exact latestDate_monthIdx t a1 a2 ht h1 h2 h12

/-- C8 (amended): the aggregation output is a deterministic function of the
member collection together with the processing-time *month*: two runs over
the same members whose (valid) processing times fall in the same calendar
month produce identical outputs, given calendar-valid leave dates. -/
theorem stats_deterministic_given_month (md : List Member) (t1 t2 : DT)
    (h1 : t1.valid) (h2 : t2.valid) (hm : monthIdx t1 = monthIdx t2)
    (hl : ∀ m ∈ md, ∀ l, m.leave_date = some l → l.valid) :
    calculate_monthly_stats md t1 = calculate_monthly_stats md t2 := by
  have hend := (latestDate_monthIdx md t1 t2 hl h1 h2 hm).2
  rcases hjd : joinDates md with _ | ⟨j, js⟩
  · rw [calculate_eq_nil md t1 hjd, calculate_eq_nil md t2 hjd]
  · rw [calculate_eq_cons md t1 j js hjd, calculate_eq_cons md t2 j js hjd,
      hend]

theorem stats_deterministic_witness :
    calculate_monthly_stats mdW8 t1W8 = calculate_monthly_stats mdW8 t2W8 :=
  stats_deterministic_given_month mdW8 t1W8 t2W8 (by decide) (by decide)
    (by decide)
    (by
      intro m hm l hld
      simp only [mdW8, List.mem_singleton] at hm
      subst hm
      have heq : l = ⟨2, 2, 20, 0, 0, 0⟩ := (Option.some.inj hld).symm
      subst heq
      decide)

/-! ## Departure-resolver lemmas -/

theorem statusList_ne (md : List Member) (s : String)
    (h : s ∈ statusList md) : s ≠ "" := by
  unfold statusList at h
  rw [List.mem_filter] at h
  simpa using h.2

theorem exit_contains_ne (md : List Member) (s : String)
    (h : (exit_statuses md).contains s = true) : s ≠ "" := by
  unfold exit_statuses at h
  split at h
  · have : s = "ausgetreten" := by simpa using h
    simp [this]
  · have hmem : s ∈ potentialExitStatuses md := by simpa using h
    unfold potentialExitStatuses at hmem
    exact statusList_ne md s (List.mem_of_mem_filter hmem)

theorem scanRevisions_cons (sfid : Nat) (cur : String) (r : Revision)
    (rest : List Revision) :
    scanRevisions sfid cur (r :: rest) =
      if revisionMatches sfid cur r then
        (match r.created_on with
         | some d => some d
         | none => scanRevisions sfid cur rest)
      else scanRevisions sfid cur rest := rfl

/-- Non-matching revisions at the front of the log are skipped without
affecting the result. -/
theorem scan_skip (sfid : Nat) (cur : String) (pre rest : List Revision)
    (h : ∀ p ∈ pre, revisionMatches sfid cur p = false) :
    scanRevisions sfid cur (pre ++ rest) = scanRevisions sfid cur rest := by
  induction pre with
  | nil => rfl
  | cons p ps ih =>
    have hp := h p (List.mem_cons_self p ps)
    rw [List.cons_append, scanRevisions_cons, hp]
    simp only [Bool.false_eq_true, if_false]
    exact ih (fun q hq => h q (List.mem_cons_of_mem _ hq))

theorem scan_none_of_all (sfid : Nat) (cur : String) (l : List Revision)
    (h : ∀ p ∈ l, revisionMatches sfid cur p = false) :
    scanRevisions sfid cur l = none := by
  have := scan_skip sfid cur l [] h
  rw [List.append_nil] at this
  exact this

/-- A revision carrying a status delta with non-empty old and new values
whose decoded new value is the (non-empty) current status matches. -/
theorem revisionMatches_true_of (cur : String) (r : Revision)
    (fs : List FieldDelta) (hcur : cur ≠ "") (hdata : r.data = some fs)
    (hmatch : ∃ f ∈ fs, f.field_id = some status_field_id ∧
        f.old_values ≠ [] ∧ f.values ≠ [] ∧ decodeStatus f.values = some cur) :
    revisionMatches status_field_id cur r = true := by
  unfold revisionMatches
  rw [hdata, List.any_eq_true]
  obtain ⟨f, hf, h1, h2, h3, h4⟩ := hmatch
  refine ⟨f, hf, ?_⟩
  unfold deltaMatches
  rw [h1, h4]
  show ((some status_field_id == some status_field_id) &&
      !f.old_values.isEmpty && !f.values.isEmpty &&
      (!(cur == "") && (cur == cur))) = true
  simp [List.isEmpty_eq_false, h2, h3, hcur]

/-- A revision none of whose status deltas decodes to the current status
does not match. -/
theorem revisionMatches_false_of (cur : String) (r : Revision)
    (h : ∀ gs, r.data = some gs → ∀ f ∈ gs,
        ¬(f.field_id = some status_field_id ∧ f.old_values ≠ [] ∧
          f.values ≠ [] ∧ decodeStatus f.values = some cur)) :
    revisionMatches status_field_id cur r = false := by
  unfold revisionMatches
  rcases hd : r.data with _ | gs
  · rfl
  · rw [List.any_eq_false]
    intro f hf
    intro hdm
    apply h gs hd f hf
    unfold deltaMatches at hdm
    rw [Bool.and_eq_true, Bool.and_eq_true, Bool.and_eq_true] at hdm
    obtain ⟨⟨⟨hid, hold⟩, hnew⟩, hD⟩ := hdm
    rcases hdec : decodeStatus f.values with _ | ns
    · rw [hdec] at hD
      exact absurd (show false = true from hD) (by simp)
    · rw [hdec] at hD
      have hD' : (!(ns == "") && (ns == cur)) = true := hD
      rw [Bool.and_eq_true, beq_iff_eq] at hD'
      rw [Bool.not_eq_true', List.isEmpty_eq_false] at hold hnew
      rw [beq_iff_eq] at hid
      exact ⟨hid, hold, hnew, congrArg some hD'.2⟩

theorem resolveMember_found (exits : List String)
    (logs : Nat → List Revision) (m : Member) (s : String) (T : DT)
    (hs : m.status = some s) (hc : exits.contains s = true)
    (hscan : scanRevisions status_field_id s (logs m.item_id) = some T) :
    resolveMember exits logs m = { m with leave_date := some T } := by
  have hmem : s ∈ exits := by simpa using hc
  simp [resolveMember, hs, hmem, hscan]

theorem resolveMember_fallback (exits : List String)
    (logs : Nat → List Revision) (m : Member) (s : String) (r0 : Revision)
    (rest : List Revision) (hs : m.status = some s)
    (hc : exits.contains s = true) (hlog : logs m.item_id = r0 :: rest)
    (hscan : scanRevisions status_field_id s (r0 :: rest) = none) :
    resolveMember exits logs m = { m with leave_date := r0.created_on } := by
  have hmem : s ∈ exits := by simpa using hc
  simp [resolveMember, hs, hmem, hlog, hscan]

theorem resolveMember_skip (exits : List String)
    (logs : Nat → List Revision) (m : Member)
    (h : ∀ s, m.status = some s → exits.contains s = false) :
    resolveMember exits logs m = m := by
  rcases hst : m.status with _ | s
  · simp [resolveMember, hst]
  · have hmem : s ∉ exits := by simpa using h s hst
    simp [resolveMember, hst, hmem]

/-- Whatever the resolver does, the result differs from the input at most
in `leave_date`. -/
theorem resolveMember_shape (exits : List String)
    (logs : Nat → List Revision) (m : Member) :
    ∃ ld, resolveMember exits logs m = { m with leave_date := ld } := by
  obtain ⟨id, co, jd, ld0, st, nm⟩ := m
  rcases st with _ | s
  · exact ⟨ld0, rfl⟩
  · by_cases hmem : s ∈ exits
    · rcases hscan : scanRevisions status_field_id s (logs id) with _ | d
      · rcases hlog : logs id with _ | ⟨r, rest⟩
        · exact ⟨ld0, by
            rw [hlog] at hscan
            simp [resolveMember, hmem, hlog, hscan]⟩
        · exact ⟨r.created_on, by
            rw [hlog] at hscan
            simp [resolveMember, hmem, hlog, hscan]⟩
      · exact ⟨some d, by simp [resolveMember, hmem, hscan]⟩
    · exact ⟨ld0, by simp [resolveMember, hmem]⟩

/-- The resolver consults the revision fetcher only at the ids of members
whose status is in the exit set. -/
theorem resolveMember_congr (exits : List String)
    (logs logs2 : Nat → List Revision) (m : Member)
    (h : ∀ s, m.status = some s → exits.contains s = true →
      logs m.item_id = logs2 m.item_id) :
    resolveMember exits logs m = resolveMember exits logs2 m := by
  rcases hst : m.status with _ | s
  · simp [resolveMember, hst]
  · by_cases hmem : s ∈ exits
    · have hlogeq := h s hst (by simpa using hmem)
      simp [resolveMember, hst, hmem, hlogeq]
    · simp [resolveMember, hst, hmem]

/-! ## Claim theorems: the departure resolver -/

/-- C1: for a member whose status is in the departed set, if the revision
log (in delivered order) is non-matching entries, then a revision carrying
a status delta with non-empty old and new value lists whose decoded new
value equals the current status, stamped `T`, then an arbitrary tail, the
resolver assigns `leave_date = T`.  The tail `suffix` is universally
quantified and absent from the conclusion: entries after the first match
are never consulted. -/
theorem departure_first_match (l1 l2 : List Member) (m : Member)
    (s : String) (logs : Nat → List Revision) (pre suffix : List Revision)
    (r : Revision) (fs : List FieldDelta) (T : DT)
    (hs : m.status = some s)
    (hexit : (exit_statuses (l1 ++ m :: l2)).contains s = true)
    (hlog : logs m.item_id = pre ++ r :: suffix)
    (hpre : ∀ p ∈ pre, revisionMatches status_field_id s p = false)
    (hdata : r.data = some fs)
    (hmatch : ∃ f ∈ fs, f.field_id = some status_field_id ∧
        f.old_values ≠ [] ∧ f.values ≠ [] ∧ decodeStatus f.values = some s)
    (hT : r.created_on = some T) :
    find_status_change_dates logs (l1 ++ m :: l2) =
      l1.map (resolveMember (exit_statuses (l1 ++ m :: l2)) logs) ++
        ({ m with leave_date := some T } ::
          l2.map (resolveMember (exit_statuses (l1 ++ m :: l2)) logs)) := by
  have hcur : s ≠ "" := exit_contains_ne _ s hexit
  have hrm := revisionMatches_true_of s r fs hcur hdata hmatch
  have hscan : scanRevisions status_field_id s (logs m.item_id) = some T := by
    rw [hlog, scan_skip _ _ pre _ hpre, scanRevisions_cons, hrm, if_pos rfl,
      hT]
  unfold find_status_change_dates
  rw [List.map_append, List.map_cons]
  rw [resolveMember_found _ logs m s T hs hexit hscan]

theorem departure_first_match_witness :
    find_status_change_dates logsC1 mdC1 =
      [{ mC1 with leave_date := some ⟨2, 2, 2, 0, 0, 0⟩ }] :=
  departure_first_match [] [] mC1 "ausgetreten" logsC1 [revNoMatchC1]
    [revLaterC1] revMatchC1 [deltaC1] ⟨2, 2, 2, 0, 0, 0⟩ rfl (by decide)
    rfl (by decide) rfl (by decide) rfl

/-- C6 counterexample: the member resolved through the approximate fallback
is *identical* to the member resolved through an exact first-entry match
with the same timestamp — the resolver's output carries no flag (boolean or
otherwise) distinguishing the approximate assignment; the distinction
exists only in a log line. -/
theorem approx_flag_counterexample :
    resolveMember (exit_statuses mdC6) logsExactC6 mC6 =
        resolveMember (exit_statuses mdC6) logsApproxC6 mC6 ∧
      (resolveMember (exit_statuses mdC6) logsApproxC6 mC6).leave_date =
        some TC6 := by
  constructor
  · rfl
  · rfl

/-- C6 (amended): for a departed member with a non-empty revision log none
of whose entries carries a status delta decoding to the current status, the
resolver assigns the first delivered entry's `created_on` as the
(approximate) `leave_date`; no approximate flag is exposed in the returned
data. -/
theorem departure_fallback (l1 l2 : List Member) (m : Member) (s : String)
    (logs : Nat → List Revision) (r0 : Revision) (rest : List Revision)
    (hs : m.status = some s)
    (hexit : (exit_statuses (l1 ++ m :: l2)).contains s = true)
    (hlog : logs m.item_id = r0 :: rest)
    (hnomatch : ∀ p ∈ r0 :: rest, ∀ gs, p.data = some gs → ∀ f ∈ gs,
        ¬(f.field_id = some status_field_id ∧ f.old_values ≠ [] ∧
          f.values ≠ [] ∧ decodeStatus f.values = some s)) :
    find_status_change_dates logs (l1 ++ m :: l2) =
      l1.map (resolveMember (exit_statuses (l1 ++ m :: l2)) logs) ++
        ({ m with leave_date := r0.created_on } ::
          l2.map (resolveMember (exit_statuses (l1 ++ m :: l2)) logs)) := by
  have hall : ∀ p ∈ r0 :: rest,
      revisionMatches status_field_id s p = false :=
    fun p hp => revisionMatches_false_of s p (hnomatch p hp)
  have hscan : scanRevisions status_field_id s (r0 :: rest) = none :=
    scan_none_of_all _ _ _ hall
  unfold find_status_change_dates
  rw [List.map_append, List.map_cons]
  rw [resolveMember_fallback _ logs m s r0 rest hs hexit hlog hscan]

theorem departure_fallback_witness :
    find_status_change_dates logsApproxC6 mdC6 =
      [{ mC6 with leave_date := some TC6 }] :=
  departure_fallback [] [] mC6 "ausgetreten" logsApproxC6 rPlainC6 [rNoneC6]
    rfl (by decide) rfl
    (by
      intro p hp gs hgs f hf
      simp only [List.mem_cons, List.mem_nil_iff, or_false] at hp
      rcases hp with rfl | rfl
      · obtain rfl : ([] : List FieldDelta) = gs := Option.some.inj hgs
        exact absurd hf (List.not_mem_nil f)
      · exact Option.noConfusion hgs)

/-- C9: a member whose status is in no departed label is returned
unchanged; every resolved member agrees with its input on all fields other
than `leave_date`; and the output depends on the revision fetcher only at
the ids of departed members — non-departed members' logs are never
consulted. -/
theorem resolver_frame (md : List Member) (logs logs2 : Nat → List Revision)
    (i : Nat) (m : Member) (hm : md[i]? = some m) :
    ((∀ s, m.status = some s → (exit_statuses md).contains s = false) →
        (find_status_change_dates logs md)[i]? = some m) ∧
      (∀ m2, (find_status_change_dates logs md)[i]? = some m2 →
          m2.item_id = m.item_id ∧ m2.created_on = m.created_on ∧
            m2.name = m.name ∧ m2.status = m.status ∧
            m2.join_date = m.join_date) ∧
      ((∀ mk ∈ md, ∀ s, mk.status = some s →
          (exit_statuses md).contains s = true →
            logs mk.item_id = logs2 mk.item_id) →
        find_status_change_dates logs md = find_status_change_dates logs2 md) := by
  refine ⟨?_, ?_, ?_⟩
  · intro hskip
    unfold find_status_change_dates
    rw [List.getElem?_map, hm]
    simp only [Option.map_some']
    rw [resolveMember_skip _ logs m hskip]
  · intro m2 hm2
    unfold find_status_change_dates at hm2
    rw [List.getElem?_map, hm] at hm2
    simp only [Option.map_some', Option.some.injEq] at hm2
    obtain ⟨ld, hld⟩ := resolveMember_shape (exit_statuses md) logs m
    rw [hld] at hm2
    rw [← hm2]
    exact ⟨rfl, rfl, rfl, rfl, rfl⟩
  · intro hagree
    unfold find_status_change_dates
    exact List.map_congr_left
      (fun mk hmk => resolveMember_congr _ logs logs2 mk
        (fun s hs hc => hagree mk hmk s hs hc))

theorem resolver_frame_witness :
    (find_status_change_dates logs9a md9)[1]? = some mStay9 ∧
      find_status_change_dates logs9a md9 =
        find_status_change_dates logs9b md9 :=
  ⟨(resolver_frame md9 logs9a logs9b 1 mStay9 (by decide)).1
      (by
        intro s hs
        have h' : s = "aktiv" := (Option.some.inj hs).symm
        subst h'
        decide),
   (resolver_frame md9 logs9a logs9b 1 mStay9 (by decide)).2.2
      (by
        intro mk hmk s hs hc
        simp only [md9, List.mem_cons, List.mem_nil_iff, or_false] at hmk
        rcases hmk with rfl | rfl
        · rfl
        · have h' : s = "aktiv" := (Option.some.inj hs).symm
          subst h'
          exact absurd hc (by decide))⟩

/-! ## Field-resolution lemmas -/

theorem resolveStep_join_set (acc : Option Nat × Option Nat × Option Nat)
    (f : RawField) (h : joinLabelMatch f = true) :
    (resolveStep acc f).1 = f.field_id := by
  unfold resolveStep
  rw [if_pos h]

theorem resolveStep_join_preserve
    (acc : Option Nat × Option Nat × Option Nat) (f : RawField)
    (h : joinLabelMatch f = false) : (resolveStep acc f).1 = acc.1 := by
  unfold resolveStep
  rw [if_neg (by simp [h])]
  by_cases h2 : statusLabelMatch f = true
  · rw [if_pos h2]
  · rw [if_neg h2]
    by_cases h3 : nameLabelMatch f = true
    · rw [if_pos h3]
    · rw [if_neg h3]

theorem resolveStep_status_set (acc : Option Nat × Option Nat × Option Nat)
    (f : RawField) (h : statusLabelMatch f = true) :
    (resolveStep acc f).2.1 = f.field_id := by
  have hj : joinLabelMatch f = false := by
    unfold statusLabelMatch at h
    rw [Bool.and_eq_true, Bool.not_eq_true'] at h
    exact h.1
  unfold resolveStep
  rw [if_neg (by simp [hj]), if_pos h]

theorem resolveStep_status_preserve
    (acc : Option Nat × Option Nat × Option Nat) (f : RawField)
    (h : statusLabelMatch f = false) : (resolveStep acc f).2.1 = acc.2.1 := by
  unfold resolveStep
  by_cases h1 : joinLabelMatch f = true
  · rw [if_pos h1]
  · rw [if_neg h1, if_neg (by simp [h])]
    by_cases h3 : nameLabelMatch f = true
    · rw [if_pos h3]
    · rw [if_neg h3]

theorem resolveStep_name_set (acc : Option Nat × Option Nat × Option Nat)
    (f : RawField) (h : nameLabelMatch f = true) :
    (resolveStep acc f).2.2 = f.field_id := by
  have h' := h
  unfold nameLabelMatch at h'
  rw [Bool.and_eq_true, Bool.and_eq_true, Bool.not_eq_true',
    Bool.not_eq_true'] at h'
  have hst : statusLabelMatch f = false := by
    unfold statusLabelMatch
    rw [h'.1.2]
    simp
  unfold resolveStep
  rw [if_neg (by simp [h'.1.1]), if_neg (by simp [hst]), if_pos h]

theorem resolveStep_name_preserve
    (acc : Option Nat × Option Nat × Option Nat) (f : RawField)
    (h : nameLabelMatch f = false) : (resolveStep acc f).2.2 = acc.2.2 := by
  unfold resolveStep
  by_cases h1 : joinLabelMatch f = true
  · rw [if_pos h1]
  · rw [if_neg h1]
    by_cases h2 : statusLabelMatch f = true
    · rw [if_pos h2]
    · rw [if_neg h2, if_neg (by simp [h])]

theorem foldl_join_preserve (l : List RawField)
    (acc : Option Nat × Option Nat × Option Nat)
    (h : ∀ g ∈ l, joinLabelMatch g = false) :
    (l.foldl resolveStep acc).1 = acc.1 := by
  induction l generalizing acc with
  | nil => rfl
  | cons g t ih =>
    rw [List.foldl_cons, ih _ (fun q hq => h q (List.mem_cons_of_mem _ hq))]
    exact resolveStep_join_preserve acc g (h g (List.mem_cons_self g t))

theorem foldl_status_preserve (l : List RawField)
    (acc : Option Nat × Option Nat × Option Nat)
    (h : ∀ g ∈ l, statusLabelMatch g = false) :
    (l.foldl resolveStep acc).2.1 = acc.2.1 := by
  induction l generalizing acc with
  | nil => rfl
  | cons g t ih =>
    rw [List.foldl_cons, ih _ (fun q hq => h q (List.mem_cons_of_mem _ hq))]
    exact resolveStep_status_preserve acc g (h g (List.mem_cons_self g t))

theorem foldl_name_preserve (l : List RawField)
    (acc : Option Nat × Option Nat × Option Nat)
    (h : ∀ g ∈ l, nameLabelMatch g = false) :
    (l.foldl resolveStep acc).2.2 = acc.2.2 := by
  induction l generalizing acc with
  | nil => rfl
  | cons g t ih =>
    rw [List.foldl_cons, ih _ (fun q hq => h q (List.mem_cons_of_mem _ hq))]
    exact resolveStep_name_preserve acc g (h g (List.mem_cons_self g t))

/-! ## Claim theorems: field resolution and normalization -/

/-- C4 counterexample: two sampled fields' labels both match the status
pattern (ids 1 then 2, in sample order); the scan resolves the status
identifier to 2, the *later* match — the first match does not win, it is
overwritten. -/
theorem field_resolution_counterexample :
    statusLabelMatch fC4a = true ∧ statusLabelMatch fC4b = true ∧
      fC4a.field_id = some 1 ∧
      scanFieldIds sampleC4 = (none, some 2, none) := by
  decide

/-- C4 (amended): the *last* matching label among the sampled fields
determines each identifier — once a later field matches, it overwrites an
earlier resolution; a match followed only by non-matching fields is what
fixes the identifier for the run. -/
theorem field_resolution_last_match (members : List RawRecord)
    (pre post : List RawField) (f : RawField)
    (hflat : sampleFields members = pre ++ f :: post) :
    (joinLabelMatch f = true → (∀ g ∈ post, joinLabelMatch g = false) →
        (scanFieldIds members).1 = f.field_id) ∧
      (statusLabelMatch f = true →
        (∀ g ∈ post, statusLabelMatch g = false) →
          (scanFieldIds members).2.1 = f.field_id) ∧
      (nameLabelMatch f = true → (∀ g ∈ post, nameLabelMatch g = false) →
        (scanFieldIds members).2.2 = f.field_id) := by
  unfold scanFieldIds
  rw [hflat, List.foldl_append, List.foldl_cons]
  refine ⟨fun hf hpost => ?_, fun hf hpost => ?_, fun hf hpost => ?_⟩
  · rw [foldl_join_preserve post _ hpost]
    exact resolveStep_join_set _ f hf
  · rw [foldl_status_preserve post _ hpost]
    exact resolveStep_status_set _ f hf
  · rw [foldl_name_preserve post _ hpost]
    exact resolveStep_name_set _ f hf

theorem field_resolution_last_witness :
    (scanFieldIds sampleC4).2.1 = fC4b.field_id :=
  (field_resolution_last_match sampleC4 [fC4a] [] fC4b (by decide)).2.1
    (by decide) (fun g hg => absurd hg (List.not_mem_nil g))

/-- C7: normalization is *not* crash-free — on a record whose join-date
field has type `"date"` and a present-but-empty `"values"` list,
`field.get("values", [{}])[0]` raises IndexError (the `[{}]` default only
covers an absent key), so `extract_member_data` aborts instead of
producing a member with `join_date` absent. -/
theorem normalization_empty_values_crash :
    extract_member_data [badRecordC7] =
      Except.error "IndexError: list index out of range" := rfl

end Podio
